import Mathlib

/-!
Verification of the sound-garden audio engine and editors.

The repository splits into the audio core (crates `audio_vm` and
`audio_program`, whose module bodies are not present under src/, only the
re-exporting `audio_vm/src/lib.rs` and their caller
`play_program/src/main.rs`) and the editors
(`sound_garden_terminal/src/app.rs` and friends).  The audio core is
therefore modelled from the specification (spec.md sections 3 to 5), as
noted on each definition; the editor definitions are translated directly
from `src/sound_garden_terminal/src/app.rs`, and `parse_program` from
`src/play_program/src/main.rs`.
-/

namespace SoundGarden

/-- Modelled from the spec: a Sample is a single real-valued signal
amplitude (spec section 3); represented exactly as a rational number. -/
abbrev Sample : Type := ℚ

/-- Modelled from the spec: a Frame is an ordered collection of exactly
CHANNELS samples (spec section 3); represented as a list whose length is
proved rather than enforced by the type. -/
abbrev Frame : Type := List Sample

/-- Modelled from the spec: CHANNELS is a process-wide constant fixed at
build time (spec section 3); its concrete value is not observable in src/,
a stereo pair is assumed. -/
def CHANNELS : Nat := 2

/-- Modelled from the spec: the configured maximum evaluation stack depth
past which compilation fails with StackOverflow (spec section 4.4 step 4). -/
def MAX_STACK_DEPTH : Nat := 64

/-- TextOp from `play_program/src/main.rs`: an identified textual operator
token, `{ id: random(), op: String }`. -/
structure TextOp where
  id : Nat
  op : String
deriving DecidableEq

/-- Helper evaluating a list of decimal digit characters to a natural. -/
def digitsToNat (cs : List Char) : Nat :=
  cs.foldl (fun n c => 10 * n + (c.toNat - 48)) 0

/-- Modelled from the spec: parsing of an unsigned numeric parameter
literal, digits optionally followed by a dot and more digits
(spec section 6, token grammar). -/
def parseUnsigned (cs : List Char) : Option ℚ :=
  let intPart := cs.takeWhile Char.isDigit
  let rest := cs.dropWhile Char.isDigit
  if intPart.isEmpty then none
  else
    match rest with
    | [] => some ((digitsToNat intPart : ℚ))
    | '.' :: frac =>
        if frac.isEmpty then none
        else if frac.all Char.isDigit then
          some ((digitsToNat intPart : ℚ) + (digitsToNat frac : ℚ) / ((10 : ℚ) ^ frac.length))
        else none
    | _ => none

/-- Modelled from the spec: parsing of a signed numeric literal
(spec section 6: a parameter literal is numeric). -/
def parseDecimal (s : String) : Option ℚ :=
  match s.data with
  | '-' :: rest => (parseUnsigned rest).map (fun q => -q)
  | cs => parseUnsigned cs

/-- Helper splitting a character list at the first colon, mirroring
the `split(':')` call visible in `sound_garden_terminal/src/app.rs`. -/
def splitAtColon : List Char → List Char × Option (List Char)
  | [] => ([], none)
  | ':' :: rest => ([], some rest)
  | c :: rest =>
      match splitAtColon rest with
      | (name, param) => (c :: name, param)

/-- Modelled from the spec: a token is an operator name optionally followed
by a colon and a parameter literal (spec sections 3 and 6). -/
def splitToken (s : String) : String × Option String :=
  match splitAtColon s.data with
  | (name, none) => (String.mk name, none)
  | (name, some p) => (String.mk name, some (String.mk p))

/-- Helper for whitespace splitting, mirroring Rust `split_whitespace`
used by `parse_program` in `play_program/src/main.rs`: runs of
non-whitespace characters, empties skipped. -/
def splitWsAux : List Char → List Char → List String
  | [], acc => if acc.isEmpty then [] else [String.mk acc.reverse]
  | c :: rest, acc =>
      if c.isWhitespace then
        if acc.isEmpty then splitWsAux rest []
        else String.mk acc.reverse :: splitWsAux rest []
      else splitWsAux rest (c :: acc)

/-- Whitespace tokenization as performed by `parse_program` in
`play_program/src/main.rs`. -/
def splitWhitespace (s : String) : List String :=
  splitWsAux s.data []

/-- Modelled from the spec: the closed tagged-variant set of resolved
operator kinds (spec sections 4.3 and 9): constant push, binary
arithmetic, stack shuffling, periodic generator (optionally with a fixed
frequency parameter), noise, delay sized in samples, and smoothing. -/
inductive OpKind
  | const (value : Sample)
  | add
  | sub
  | mul
  | div
  | dup
  | swap
  | drop
  | sine (freq : Option ℚ)
  | noise
  | delay (size : Nat)
  | lpf
deriving DecidableEq

/-- Modelled from the spec: declared input arity, the number of samples an
operator pops (spec section 4.3). -/
def OpKind.inputs : OpKind → Nat
  | OpKind.const _ => 0
  | OpKind.add => 2
  | OpKind.sub => 2
  | OpKind.mul => 2
  | OpKind.div => 2
  | OpKind.dup => 1
  | OpKind.swap => 2
  | OpKind.drop => 1
  | OpKind.sine none => 1
  | OpKind.sine (some _) => 0
  | OpKind.noise => 0
  | OpKind.delay _ => 1
  | OpKind.lpf => 1

/-- Modelled from the spec: declared output arity, the number of samples an
operator pushes (spec section 4.3). -/
def OpKind.outputs : OpKind → Nat
  | OpKind.const _ => 1
  | OpKind.add => 1
  | OpKind.sub => 1
  | OpKind.mul => 1
  | OpKind.div => 1
  | OpKind.dup => 2
  | OpKind.swap => 2
  | OpKind.drop => 0
  | OpKind.sine _ => 1
  | OpKind.noise => 1
  | OpKind.delay _ => 1
  | OpKind.lpf => 1

/-- Modelled from the spec: hidden internal memory of stateful operators,
phase accumulators, random generators, delay buffers and filter history
(spec section 4.3). -/
inductive OpState
  | sine (phase : ℚ)
  | noise (seed : Nat)
  | delay (buffer : List Sample)
  | lpf (prev : Sample)
deriving DecidableEq

/-- Modelled from the spec: the fresh state constructed on first sight of
an identity, phase 0, empty delay buffer, and so on (spec section 4.4
step 3); `none` marks a stateless operator. -/
def OpKind.freshState : OpKind → Option OpState
  | OpKind.sine _ => some (OpState.sine 0)
  | OpKind.noise => some (OpState.noise 1)
  | OpKind.delay _ => some (OpState.delay [])
  | OpKind.lpf => some (OpState.lpf 0)
  | _ => none

/-- Context from the spec: the mapping from TextOp identity to the live
stateful-operator instance (spec section 3), modelled as an association
list owned by the compilation session. -/
abbrev Context : Type := List (Nat × OpState)

/-- Lookup of an identity in a Context, first binding wins. -/
def ctxFind : Context → Nat → Option OpState
  | [], _ => none
  | (k, s) :: rest, i => if k = i then some s else ctxFind rest i

/-- Insertion of a fresh binding in a Context; only ever called on an
identity that is absent, mirroring spec section 4.4 step 3. -/
def ctxInsert (ctx : Context) (i : Nat) (s : OpState) : Context :=
  (i, s) :: ctx

/-- Replacement of the state stored for an identity, used by frame
evaluation to write back mutated operator state. -/
def ctxUpdate : Context → Nat → OpState → Context
  | [], i, s => [(i, s)]
  | (k, v) :: rest, i, s =>
      if k = i then (i, s) :: rest else (k, v) :: ctxUpdate rest i s

/-- Membership test on an identity list. -/
def natMem : List Nat → Nat → Bool
  | [], _ => false
  | x :: rest, i => if x = i then true else natMem rest i

/-- Modelled from the spec: garbage collection of Context entries whose
identity no longer appears in the token sequence (spec section 4.4
step 6). -/
def ctxGc (ctx : Context) (ids : List Nat) : Context :=
  ctx.filter (fun e => natMem ids e.1)

/-- Modelled from the spec: the structured compile error taxonomy
(spec section 7), carrying the offending token's name or position. -/
inductive CompileError
  | UnknownOperator (name : String)
  | StackUnderflow (ix : Nat)
  | StackOverflow (ix : Nat)
  | InsufficientOutputs
  | InvalidParameter (ix : Nat)
deriving DecidableEq

/-- Internal result of resolving a single token against the registry. -/
inductive ResolveError
  | unknown (name : String)
  | badParam
deriving DecidableEq

/-- Modelled from the spec: resolution of one token text against the
operator registry (spec sections 4.3 and 4.4 steps 1 and 2): a token that
parses as a numeric literal is a constant push; otherwise the name is
looked up and an optional numeric parameter is parsed, delay requiring a
parameter giving its buffer size in seconds. -/
def resolveOp (sampleRate : Nat) (text : String) : Except ResolveError OpKind :=
  match parseDecimal text with
  | some v => Except.ok (OpKind.const v)
  | none =>
      match splitToken text with
      | (name, param) =>
          let pq : Except ResolveError (Option ℚ) :=
            match param with
            | none => Except.ok none
            | some p =>
                match parseDecimal p with
                | some q => Except.ok (some q)
                | none => Except.error ResolveError.badParam
          match pq with
          | Except.error e => Except.error e
          | Except.ok pv =>
              match name with
              | "+" => Except.ok OpKind.add
              | "-" => Except.ok OpKind.sub
              | "*" => Except.ok OpKind.mul
              | "/" => Except.ok OpKind.div
              | "dup" => Except.ok OpKind.dup
              | "swap" => Except.ok OpKind.swap
              | "drop" => Except.ok OpKind.drop
              | "sine" => Except.ok (OpKind.sine pv)
              | "noise" => Except.ok OpKind.noise
              | "delay" =>
                  match pv with
                  | some q => Except.ok (OpKind.delay ((q * (sampleRate : ℚ)).floor.toNat))
                  | none => Except.error ResolveError.badParam
              | "lpf" => Except.ok OpKind.lpf
              | other => Except.error (ResolveError.unknown other)

/-- Whether a token resolves to a stateful operator. -/
def resolvesStateful (sampleRate : Nat) (text : String) : Bool :=
  match resolveOp sampleRate text with
  | Except.ok k => k.freshState.isSome
  | Except.error _ => false

/-- Instr: one resolved operator instance of a compiled Program, the kind
together with the identity keying its shared state (spec section 3,
Program and shared-ownership discipline). -/
structure Instr where
  kind : OpKind
  id : Nat
deriving DecidableEq

/-- Program from the spec: the ordered, immutable-once-built sequence of
resolved operator instances (spec section 3). -/
abbrev Program : Type := List Instr

/-- Modelled from the spec: step 3 of compilation for one token, reusing
the existing state instance when the identity is present in the Context
and inserting fresh state otherwise (spec section 4.4 step 3). -/
def stateStep (ctx : Context) (i : Nat) (kind : OpKind) : Context :=
  match kind.freshState with
  | none => ctx
  | some fresh =>
      match ctxFind ctx i with
      | some _ => ctx
      | none => ctxInsert ctx i fresh

/-- Modelled from the spec: the token loop of compile_program
(spec section 4.4 steps 1 to 5 and 7): resolve each token, thread the
Context, track the running stack depth against arity, and build the
instruction sequence; the final depth must reach CHANNELS.  The Context is
returned in every outcome, mirroring the `&mut Context` argument whose
mutations survive an early error return. -/
def compileOps (sampleRate : Nat) :
    List TextOp → Nat → Nat → Context → Except CompileError Program × Context
  | [], _, depth, ctx =>
      if depth < CHANNELS then (Except.error CompileError.InsufficientOutputs, ctx)
      else (Except.ok [], ctx)
  | t :: rest, ix, depth, ctx =>
      match resolveOp sampleRate t.op with
      | Except.error (ResolveError.unknown n) =>
          (Except.error (CompileError.UnknownOperator n), ctx)
      | Except.error ResolveError.badParam =>
          (Except.error (CompileError.InvalidParameter ix), ctx)
      | Except.ok kind =>
          let ctx2 := stateStep ctx t.id kind
          if depth < kind.inputs then
            (Except.error (CompileError.StackUnderflow ix), ctx2)
          else
            let depth2 := depth - kind.inputs + kind.outputs
            if MAX_STACK_DEPTH < depth2 then
              (Except.error (CompileError.StackOverflow ix), ctx2)
            else
              match compileOps sampleRate rest (ix + 1) depth2 ctx2 with
              | (Except.ok prog, ctx3) => (Except.ok (Instr.mk kind t.id :: prog), ctx3)
              | (Except.error e, ctx3) => (Except.error e, ctx3)

/-- Modelled from the spec: compile_program (spec section 4.4), the token
loop followed on success by garbage collection of Context entries whose
identity no longer appears in the token sequence (step 6). -/
def compile_program (ops : List TextOp) (sampleRate : Nat) (ctx : Context) :
    Except CompileError Program × Context :=
  match compileOps sampleRate ops 0 0 ctx with
  | (Except.ok prog, ctx2) => (Except.ok prog, ctxGc ctx2 (ops.map TextOp.id))
  | (Except.error e, ctx2) => (Except.error e, ctx2)

/-- Modelled from the spec: the tracked running stack depth of
spec section 4.4 step 4 in isolation, `none` when a token fails to
resolve or drives the depth out of bounds, `some d` with the final depth
when all tokens are processed. -/
def depthRun (sampleRate : Nat) : List TextOp → Nat → Option Nat
  | [], depth => some depth
  | t :: rest, depth =>
      match resolveOp sampleRate t.op with
      | Except.error _ => none
      | Except.ok kind =>
          if depth < kind.inputs then none
          else
            let depth2 := depth - kind.inputs + kind.outputs
            if MAX_STACK_DEPTH < depth2 then none
            else depthRun sampleRate rest depth2

/-- Modelled from the spec: the evaluation-stack fraction of a phase
accumulator, wrapping modulo 1 (spec section 4.3, periodic generators). -/
def ratFract (x : ℚ) : ℚ :=
  x - (Rat.floor x : ℚ)

/-- Modelled from the spec: the periodic waveform emitted from the current
phase; the spec names a sine, computed here as an exact piecewise-linear
periodic wave since transcendental functions are not exactly computable
over the rationals (no covered claim inspects the wave shape). -/
def waveform (phase : ℚ) : ℚ :=
  if phase < 1 / 2 then 4 * phase - 1 else 3 - 4 * phase

/-- Modelled from the spec: one step of the noise generator's hidden
random state, a linear congruential generator (spec section 4.3). -/
def lcgNext (seed : Nat) : Nat :=
  (1103515245 * seed + 12345) % 2147483648

/-- Modelled from the spec: the sample emitted by the noise generator for
a given generator state, scaled into [-1, 1]. -/
def noiseSample (seed : Nat) : ℚ :=
  ((seed % 2001 : Nat) : ℚ) / 1000 - 1

/-- Modelled from the spec: outputs of a stateless operator given its
popped arguments, listed top first (spec section 4.3); arithmetic takes
the top of the stack as its right-hand operand. -/
def OpKind.evalPure : OpKind → List Sample → List Sample
  | OpKind.const v, _ => [v]
  | OpKind.add, args => [args.getD 1 0 + args.headD 0]
  | OpKind.sub, args => [args.getD 1 0 - args.headD 0]
  | OpKind.mul, args => [args.getD 1 0 * args.headD 0]
  | OpKind.div, args => [args.getD 1 0 / args.headD 0]
  | OpKind.dup, args => [args.headD 0, args.headD 0]
  | OpKind.swap, args => [args.getD 1 0, args.headD 0]
  | OpKind.drop, _ => []
  | k, _ => List.replicate k.outputs 0

/-- Modelled from the spec: one invocation of a stateful operator, reading
its popped arguments and private state and producing its pushed outputs
(top first) and successor state (spec section 4.3): the oscillator
advances its phase by frequency over sample rate wrapping modulo 1, the
delay keeps a buffer of prior inputs sized by its parameter, the filter
smooths, the noise generator steps its seed.  A state whose variant does
not match the kind cannot be produced by compilation; arity is kept by
emitting zeroes there. -/
def statefulStep (sampleRate : Nat) (kind : OpKind) (args : List Sample)
    (s : OpState) : List Sample × OpState :=
  match kind, s with
  | OpKind.sine freqP, OpState.sine phase =>
      let freq : ℚ :=
        match freqP with
        | some f => f
        | none => args.headD 0
      ([waveform phase], OpState.sine (ratFract (phase + freq / (sampleRate : ℚ))))
  | OpKind.noise, OpState.noise seed =>
      ([noiseSample (lcgNext seed)], OpState.noise (lcgNext seed))
  | OpKind.delay size, OpState.delay buf =>
      let x := args.headD 0
      let buf2 := buf ++ [x]
      if size < buf2.length then (
        [buf2.headD 0], OpState.delay buf2.tail)
      else ([0], OpState.delay buf2)
  | OpKind.lpf, OpState.lpf prev =>
      let x := args.headD 0
      ([(prev + x) / 2], OpState.lpf ((prev + x) / 2))
  | k, s0 => (List.replicate k.outputs 0, s0)

/-- Modelled from the spec: evaluation of one operator instance against
the per-frame stack (head is the top): pop the declared input arity, run
the operator, push the declared output arity, writing mutated state back
to the shared arena (spec sections 4.3 and 4.5). -/
def runInstr (sampleRate : Nat) (ins : Instr) (stack : List Sample)
    (states : Context) : List Sample × Context :=
  let args := stack.take ins.kind.inputs
  let rest := stack.drop ins.kind.inputs
  match ins.kind.freshState with
  | none => (ins.kind.evalPure args ++ rest, states)
  | some fresh =>
      match statefulStep sampleRate ins.kind args ((ctxFind states ins.id).getD fresh) with
      | (outs, s2) => (outs ++ rest, ctxUpdate states ins.id s2)

/-- Modelled from the spec: strictly sequential evaluation of a Program's
operators over the per-frame stack (spec section 4.5). -/
def runProgram (sampleRate : Nat) :
    Program → List Sample → Context → List Sample × Context
  | [], stack, states => (stack, states)
  | ins :: rest, stack, states =>
      match runInstr sampleRate ins stack states with
      | (stack2, states2) => runProgram sampleRate rest stack2 states2

/-- Modelled from the spec: the virtual machine holding the currently
active Program (spec section 4.5); the `states` field is the shared
state arena referenced both by the Context of the compilation session and
by the installed Program's operator instances (spec section 3,
shared-ownership discipline), and the sample rate is the one the Program
was compiled for. -/
structure VM where
  sampleRate : Nat
  program : Program
  states : Context
deriving DecidableEq

/-- Modelled from the spec: next_frame (spec section 4.5): reset the
stack, evaluate the active Program in sequence, and map the final stack
contents to a Frame by taking the top CHANNELS values. -/
def VM.next_frame (vm : VM) : Frame × VM :=
  match runProgram vm.sampleRate vm.program [] vm.states with
  | (stack, states2) => (stack.take CHANNELS, VM.mk vm.sampleRate vm.program states2)

/-- Sequence of the first n Frames produced by repeated next_frame calls. -/
def framesOut (vm : VM) : Nat → List Frame
  | 0 => []
  | Nat.succ n => (VM.next_frame vm).1 :: framesOut (VM.next_frame vm).2 n

/-- Modelled from the spec: one control-thread edit step (spec sections 5
and 7): compile the token sequence against the session Context and, only
on success, atomically install the new Program; on a compile error the
previously installed Program remains active. -/
def editStep (vm : VM) (ops : List TextOp) : VM × Option CompileError :=
  match compile_program ops vm.sampleRate vm.states with
  | (Except.ok prog, ctx2) => (VM.mk vm.sampleRate prog ctx2, none)
  | (Except.error e, ctx2) => (VM.mk vm.sampleRate vm.program ctx2, some e)

/-- Modelled from the spec: the effect on the system of running a compile
without installing its result (spec section 4.4: compilation never touches
the currently-installed VM Program; it only mutates the control-thread
Context). -/
def compileOnly (vm : VM) (ops : List TextOp) : VM :=
  VM.mk vm.sampleRate vm.program (compile_program ops vm.sampleRate vm.states).2

/-- Well-formedness of an installed system: every stateful operator
instance of the installed Program is backed by an entry of the shared
state arena (spec section 3, reachability invariant); this holds for
every Program installed by a successful compile. -/
def vmWF (vm : VM) : Bool :=
  vm.program.all (fun ins => !ins.kind.freshState.isSome || (ctxFind vm.states ins.id).isSome)

/-- Identities of the stateful instances of a Program. -/
def statefulIds (prog : Program) : List Nat :=
  (prog.filter (fun ins => ins.kind.freshState.isSome)).map Instr.id

/-- Token construction of `parse_program` from `play_program/src/main.rs`:
split the text on whitespace and pair every token with the next identity
drawn from the random generator, modelled as the stream `ids`. -/
def parseOps (s : String) (ids : List Nat) : List TextOp :=
  ((splitWhitespace s).zip ids).map (fun p => TextOp.mk p.2 p.1)

/-- parse_program from `play_program/src/main.rs`: tokenize, assign fresh
random identities, and compile with a brand-new empty Context.  The
source uses the compile result directly as the Program to load; the
compile result is returned here whole, together with the discarded
temporary Context. -/
def parse_program (s : String) (sampleRate : Nat) (ids : List Nat) :
    Except CompileError Program × Context :=
  compile_program (parseOps s ids) sampleRate []

/-- Position from `sound_garden_terminal/src/app.rs` (fields declared x
then y); the i16 coordinates are modelled as integers, whose comparison
agrees with i16 comparison. -/
structure Position where
  x : Int
  y : Int
deriving DecidableEq

/-- Derived Ord of Position in `sound_garden_terminal/src/app.rs`: the
Rust derive compares fields in declaration order, x first and then y. -/
def Position.cmp (a b : Position) : Ordering :=
  match compare a.x b.x with
  | Ordering.eq => compare a.y b.y
  | o => o

/-- Hand-written PartialOrd of Position from
`sound_garden_terminal/src/app.rs` lines 189-198: y is compared first and
x only on ties. -/
def Position.partialCmp (a b : Position) : Option Ordering :=
  match compare a.y b.y with
  | Ordering.eq => some (compare a.x b.x)
  | o => some o

/-- Node from `sound_garden_terminal/src/app.rs`. -/
structure Node where
  id : Nat
  draft : Bool
  op : String
  position : Position
deriving DecidableEq

/-- SavedState from `sound_garden_terminal/src/app.rs`. -/
structure SavedState where
  cursor : Position
  nodes : List Node
  program : String
deriving DecidableEq

/-- InputMode from `sound_garden_terminal/src/app.rs`. -/
inductive InputMode
  | Normal
  | Insert
  | Replace
deriving DecidableEq

/-- Screen from `sound_garden_terminal/src/app.rs`. -/
inductive Screen
  | Editor
  | Help
  | Ops
deriving DecidableEq

/-- SavedStateCommand from `sound_garden_terminal/src/app.rs`; the
HashMap of previous identities is modelled as an association list. -/
inductive SavedStateCommand
  | RandomizeNodeIds (previous_ids : List (Nat × Nat))
  | MoveCursor (offset : Position)
deriving DecidableEq

/-- Association-list lookup for the previous-identity map. -/
def lookupNat : List (Nat × Nat) → Nat → Option Nat
  | [], _ => none
  | (k, v) :: rest, i => if k = i then some v else lookupNat rest i

/-- Loop of SavedStateCommand::apply for RandomizeNodeIds
(`sound_garden_terminal/src/app.rs`): every node receives the next value
of the global random generator (modelled as a seed threaded through) and
the map from new to previous identity is extended. -/
def randomizeNodes : List Node → List (Nat × Nat) → Nat →
    List Node × List (Nat × Nat) × Nat
  | [], prev, seed => ([], prev, seed)
  | n :: rest, prev, seed =>
      match randomizeNodes rest ((lcgNext seed, n.id) :: prev) (lcgNext seed) with
      | (ns, p, sd) => (Node.mk (lcgNext seed) n.draft n.op n.position :: ns, p, sd)

/-- Loop of SavedStateCommand::undo for RandomizeNodeIds
(`sound_garden_terminal/src/app.rs`): every node's identity is restored
from the previous-identity map, falling back to a fresh random value when
the map has no entry. -/
def unrandomizeNodes : List Node → List (Nat × Nat) → Nat → List Node × Nat
  | [], _, seed => ([], seed)
  | n :: rest, prev, seed =>
      match lookupNat prev n.id with
      | some old =>
          match unrandomizeNodes rest prev seed with
          | (ns, sd) => (Node.mk old n.draft n.op n.position :: ns, sd)
      | none =>
          match unrandomizeNodes rest prev (lcgNext seed) with
          | (ns, sd) => (Node.mk (lcgNext seed) n.draft n.op n.position :: ns, sd)

/-- Command::apply from `sound_garden_terminal/src/app.rs`: the command
mutates itself (its previous-identity map) as well as the target state. -/
def SavedStateCommand.applyC :
    SavedStateCommand → SavedState → Nat → SavedStateCommand × SavedState × Nat
  | SavedStateCommand.RandomizeNodeIds prev, st, seed =>
      match randomizeNodes st.nodes prev seed with
      | (ns, prev2, seed2) =>
          (SavedStateCommand.RandomizeNodeIds prev2,
           SavedState.mk st.cursor ns st.program, seed2)
  | SavedStateCommand.MoveCursor off, st, seed =>
      (SavedStateCommand.MoveCursor off,
       SavedState.mk (Position.mk (st.cursor.x + off.x) (st.cursor.y + off.y))
         st.nodes st.program,
       seed)

/-- Command::undo from `sound_garden_terminal/src/app.rs`. -/
def SavedStateCommand.undoC :
    SavedStateCommand → SavedState → Nat → SavedState × Nat
  | SavedStateCommand.RandomizeNodeIds prev, st, seed =>
      match unrandomizeNodes st.nodes prev seed with
      | (ns, sd) => (SavedState.mk st.cursor ns st.program, sd)
  | SavedStateCommand.MoveCursor off, st, seed =>
      (SavedState.mk (Position.mk (st.cursor.x - off.x) (st.cursor.y - off.y))
         st.nodes st.program,
       seed)

/-- Record over SavedStateCommand from the external `redo` crate, as used
by App: the timeline of commands, the current position in it (commands
before it are applied), the edited target, and the seed of the global
random generator consumed by commands. -/
structure Record where
  target : SavedState
  commands : List SavedStateCommand
  current : Nat
  seed : Nat
deriving DecidableEq

/-- Record::undo from the `redo` crate: when some command precedes the
current position, call its undo against the target and step back. -/
def Record.undo (r : Record) : Record :=
  match r.current, r.commands.get? (r.current - 1) with
  | n + 1, some c =>
      match SavedStateCommand.undoC c r.target r.seed with
      | (st, sd) => Record.mk st r.commands n sd
  | _, _ => r

/-- Record::redo from the `redo` crate: when a command sits at the current
position, reapply it against the target and step forward. -/
def Record.redo (r : Record) : Record :=
  match r.commands.get? r.current with
  | some c =>
      match SavedStateCommand.applyC c r.target r.seed with
      | (c2, st, sd) =>
          Record.mk st (r.commands.set r.current c2) (r.current + 1) sd
  | none => r

/-- App from `sound_garden_terminal/src/app.rs`; the help and group maps
are modelled as association lists. -/
structure App where
  ctx : Context
  cycles : List (List String)
  draft : Bool
  help_scroll : Nat
  input_mode : InputMode
  op_groups : List (String × List String)
  op_help : List (String × String)
  ops : List TextOp
  play : Bool
  recording : Bool
  screen : Screen
  status : String
  saved_state : Record

/-- App::undo from `sound_garden_terminal/src/app.rs` lines 83-85: it
calls saved_state.undo(). -/
def App.undo (a : App) : App :=
  { a with saved_state := a.saved_state.undo }

/-- App::redo from `sound_garden_terminal/src/app.rs` lines 87-89: its
body also calls saved_state.undo(). -/
def App.redo (a : App) : App :=
  { a with saved_state := a.saved_state.undo }

/-! Supporting lemmas about Context operations. -/

theorem natMem_iff (l : List Nat) (i : Nat) : natMem l i = true ↔ i ∈ l := by
  induction l with
  | nil => simp [natMem]
  | cons x rest ih =>
      by_cases hx : x = i
      · subst hx; simp [natMem]
      · simp [natMem, hx, ih, Ne.symm hx]

theorem ctxFind_update_self (ctx : Context) (i : Nat) (s : OpState) :
    ctxFind (ctxUpdate ctx i s) i = some s := by
  induction ctx with
  | nil => simp [ctxUpdate, ctxFind]
  | cons e rest ih =>
      by_cases hk : e.1 = i
      · simp [ctxUpdate, hk, ctxFind]
      · simp [ctxUpdate, hk, ctxFind, ih]

theorem ctxFind_update_ne (ctx : Context) (i j : Nat) (s : OpState)
    (h : j ≠ i) : ctxFind (ctxUpdate ctx i s) j = ctxFind ctx j := by
  induction ctx with
  | nil => simp [ctxUpdate, ctxFind, Ne.symm h]
  | cons e rest ih =>
      by_cases hk : e.1 = i
      · simp [ctxUpdate, hk, ctxFind, h, Ne.symm h]
      · by_cases hj : e.1 = j
        · simp [ctxUpdate, hk, ctxFind, hj, h]
        · simp [ctxUpdate, hk, ctxFind, hj, ih]

theorem ctxFind_gc (ctx : Context) (ids : List Nat) (i : Nat) :
    ctxFind (ctxGc ctx ids) i
      = if natMem ids i = true then ctxFind ctx i else none := by
  induction ctx with
  | nil => by_cases hm : natMem ids i = true <;> simp [ctxGc, ctxFind, hm]
  | cons e rest ih =>
      obtain ⟨k, v⟩ := e
      simp only [ctxGc] at ih ⊢
      by_cases hk : k = i
      · subst hk
        by_cases hm : natMem ids k = true <;>
          simp [List.filter_cons, hm, ctxFind, ih]
      · by_cases hm2 : natMem ids k = true <;>
          simp [List.filter_cons, hm2, ctxFind, hk, ih]

theorem stateStep_preserves_find (ctx : Context) (j : Nat) (kind : OpKind)
    (i : Nat) (v : OpState) (h : ctxFind ctx i = some v) :
    ctxFind (stateStep ctx j kind) i = some v := by
  unfold stateStep
  cases kind.freshState with
  | none => exact h
  | some fresh =>
      cases hj : ctxFind ctx j with
      | some s => exact h
      | none =>
          have hne : j ≠ i := by
            intro he; subst he; rw [h] at hj; exact Option.noConfusion hj
          simp [ctxInsert, ctxFind, hne, h]

theorem compileOps_preserves_find (s : Nat) :
    ∀ (ops : List TextOp) (ix depth : Nat) (ctx : Context) (i : Nat) (v : OpState),
      ctxFind ctx i = some v →
      ctxFind (compileOps s ops ix depth ctx).2 i = some v := by
  intro ops
  induction ops with
  | nil =>
      intro ix depth ctx i v h
      by_cases hd : depth < CHANNELS <;> simp [compileOps, hd, h]
  | cons t rest ih =>
      intro ix depth ctx i v h
      cases hr : resolveOp s t.op with
      | error e =>
          cases e <;> simp [compileOps, hr, h]
      | ok kind =>
          have h2 := stateStep_preserves_find ctx t.id kind i v h
          by_cases hlt : depth < kind.inputs
          · simp [compileOps, hr, hlt, h2]
          · by_cases hov : MAX_STACK_DEPTH < depth - kind.inputs + kind.outputs
            · simp [compileOps, hr, hlt, hov, h2]
            · have h3 := ih (ix + 1) (depth - kind.inputs + kind.outputs)
                (stateStep ctx t.id kind) i v h2
              cases hc : compileOps s rest (ix + 1) (depth - kind.inputs + kind.outputs)
                  (stateStep ctx t.id kind) with
              | mk r ctx3 =>
                  rw [hc] at h3
                  cases r <;> simp [compileOps, hr, hlt, hov, hc, h3]

theorem stateStep_find_provenance (ctx : Context) (j : Nat) (kind : OpKind)
    (i : Nat) (v : OpState)
    (h : ctxFind (stateStep ctx j kind) i = some v) :
    ctxFind ctx i = some v ∨ ∃ k : OpKind, k.freshState = some v := by
  unfold stateStep at h
  cases hf : kind.freshState with
  | none => rw [hf] at h; exact Or.inl h
  | some fresh =>
      rw [hf] at h
      cases hj : ctxFind ctx j with
      | some s0 => rw [hj] at h; exact Or.inl h
      | none =>
          rw [hj] at h
          by_cases hji : j = i
          · subst hji
            simp [ctxInsert, ctxFind] at h
            exact Or.inr ⟨kind, hf.trans (by rw [h])⟩
          · simp [ctxInsert, ctxFind, hji] at h
            exact Or.inl h

theorem compileOps_find_provenance (s : Nat) :
    ∀ (ops : List TextOp) (ix depth : Nat) (ctx : Context) (i : Nat) (v : OpState),
      ctxFind (compileOps s ops ix depth ctx).2 i = some v →
      ctxFind ctx i = some v ∨ ∃ k : OpKind, k.freshState = some v := by
  intro ops
  induction ops with
  | nil =>
      intro ix depth ctx i v h
      by_cases hd : depth < CHANNELS <;> simp [compileOps, hd] at h <;> exact Or.inl h
  | cons t rest ih =>
      intro ix depth ctx i v h
      cases hr : resolveOp s t.op with
      | error e =>
          cases e <;> simp [compileOps, hr] at h <;> exact Or.inl h
      | ok kind =>
          by_cases hlt : depth < kind.inputs
          · simp [compileOps, hr, hlt] at h
            exact stateStep_find_provenance ctx t.id kind i v h
          · by_cases hov : MAX_STACK_DEPTH < depth - kind.inputs + kind.outputs
            · simp [compileOps, hr, hlt, hov] at h
              exact stateStep_find_provenance ctx t.id kind i v h
            · cases hc : compileOps s rest (ix + 1) (depth - kind.inputs + kind.outputs)
                  (stateStep ctx t.id kind) with
              | mk r ctx3 =>
                  have h3 : ctxFind ctx3 i = some v := by
                    cases r <;> simp [compileOps, hr, hlt, hov, hc] at h <;> exact h
                  have h4 := ih (ix + 1) (depth - kind.inputs + kind.outputs)
                    (stateStep ctx t.id kind) i v (by rw [hc]; exact h3)
                  cases h4 with
                  | inl h5 => exact stateStep_find_provenance ctx t.id kind i v h5
                  | inr h5 => exact Or.inr h5

theorem evalPure_length (k : OpKind) (args : List Sample)
    (hf : k.freshState = none) : (k.evalPure args).length = k.outputs := by
  cases k <;> simp [OpKind.evalPure, OpKind.outputs, OpKind.freshState] at hf ⊢

theorem statefulStep_length (s : Nat) (k : OpKind) (args : List Sample)
    (st : OpState) : ((statefulStep s k args st).1).length = k.outputs := by
  cases k <;> cases st <;> simp [statefulStep, OpKind.outputs]
  split <;> simp

theorem runInstr_length (s : Nat) (ins : Instr) (stack : List Sample)
    (states : Context) :
    ((runInstr s ins stack states).1).length
      = stack.length - ins.kind.inputs + ins.kind.outputs := by
  unfold runInstr
  cases hf : ins.kind.freshState with
  | none =>
      have he := evalPure_length ins.kind (stack.take ins.kind.inputs) hf
      simp [List.length_drop, he]
      omega
  | some fresh =>
      cases hs : statefulStep s ins.kind (stack.take ins.kind.inputs)
          ((ctxFind states ins.id).getD fresh) with
      | mk outs s2 =>
          have hl := statefulStep_length s ins.kind (stack.take ins.kind.inputs)
            ((ctxFind states ins.id).getD fresh)
          rw [hs] at hl
          simp at hl
          simp [hs, List.length_drop, hl]
          omega

theorem compileOps_ok_run (s : Nat) :
    ∀ (ops : List TextOp) (ix depth : Nat) (ctx : Context) (prog : Program)
      (ctx2 : Context),
      compileOps s ops ix depth ctx = (Except.ok prog, ctx2) →
      ∃ d, depthRun s ops depth = some d ∧ CHANNELS ≤ d ∧
        ∀ (states : Context) (stack : List Sample), stack.length = depth →
          ((runProgram s prog stack states).1).length = d := by
  intro ops
  induction ops with
  | nil =>
      intro ix depth ctx prog ctx2 h
      by_cases hd : depth < CHANNELS
      · simp [compileOps, hd] at h
      · simp [compileOps, hd] at h
        obtain ⟨hp, hc⟩ := h
        refine ⟨depth, by simp [depthRun], by omega, ?_⟩
        intro states stack hs
        subst hp
        simp [runProgram, hs]
  | cons t rest ih =>
      intro ix depth ctx prog ctx2 h
      cases hr : resolveOp s t.op with
      | error e => cases e <;> simp [compileOps, hr] at h
      | ok kind =>
          by_cases hlt : depth < kind.inputs
          · simp [compileOps, hr, hlt] at h
          · by_cases hov : MAX_STACK_DEPTH < depth - kind.inputs + kind.outputs
            · simp [compileOps, hr, hlt, hov] at h
            · cases hc : compileOps s rest (ix + 1) (depth - kind.inputs + kind.outputs)
                  (stateStep ctx t.id kind) with
              | mk r ctx3 =>
                  cases r with
                  | error e => simp [compileOps, hr, hlt, hov, hc] at h
                  | ok prog2 =>
                      simp [compileOps, hr, hlt, hov, hc] at h
                      obtain ⟨hp, hctx⟩ := h
                      obtain ⟨d, hd1, hd2, hd3⟩ := ih _ _ _ _ _ hc
                      refine ⟨d, ?_, hd2, ?_⟩
                      · simp [depthRun, hr, hlt, hov, hd1]
                      · intro states stack hs
                        subst hp
                        cases hri : runInstr s (Instr.mk kind t.id) stack states with
                        | mk stack2 states2 =>
                            have hl := runInstr_length s (Instr.mk kind t.id) stack states
                            rw [hri] at hl
                            simp at hl
                            simp [runProgram, hri]
                            exact hd3 states2 stack2 (by rw [hl, hs])

theorem compileOps_insufficient (s : Nat) :
    ∀ (ops : List TextOp) (ix depth : Nat) (ctx : Context) (d : Nat),
      depthRun s ops depth = some d → d < CHANNELS →
      (compileOps s ops ix depth ctx).1
        = Except.error CompileError.InsufficientOutputs := by
  intro ops
  induction ops with
  | nil =>
      intro ix depth ctx d h hd
      simp [depthRun] at h
      subst h
      simp [compileOps, hd]
  | cons t rest ih =>
      intro ix depth ctx d h hd
      cases hr : resolveOp s t.op with
      | error e => simp [depthRun, hr] at h
      | ok kind =>
          by_cases hlt : depth < kind.inputs
          · simp [depthRun, hr, hlt] at h
          · by_cases hov : MAX_STACK_DEPTH < depth - kind.inputs + kind.outputs
            · simp [depthRun, hr, hlt, hov] at h
            · simp [depthRun, hr, hlt, hov] at h
              have h2 := ih (ix + 1) (depth - kind.inputs + kind.outputs)
                (stateStep ctx t.id kind) d h hd
              cases hc : compileOps s rest (ix + 1) (depth - kind.inputs + kind.outputs)
                  (stateStep ctx t.id kind) with
              | mk r ctx3 =>
                  rw [hc] at h2
                  simp at h2
                  subst h2
                  simp [compileOps, hr, hlt, hov, hc]

theorem compileOps_ok_of_depth (s : Nat) :
    ∀ (ops : List TextOp) (ix depth : Nat) (ctx : Context) (d : Nat),
      depthRun s ops depth = some d → CHANNELS ≤ d →
      ∃ prog, (compileOps s ops ix depth ctx).1 = Except.ok prog := by
  intro ops
  induction ops with
  | nil =>
      intro ix depth ctx d h hd
      simp [depthRun] at h
      subst h
      exact ⟨[], by simp [compileOps, Nat.not_lt.mpr hd]⟩
  | cons t rest ih =>
      intro ix depth ctx d h hd
      cases hr : resolveOp s t.op with
      | error e => simp [depthRun, hr] at h
      | ok kind =>
          by_cases hlt : depth < kind.inputs
          · simp [depthRun, hr, hlt] at h
          · by_cases hov : MAX_STACK_DEPTH < depth - kind.inputs + kind.outputs
            · simp [depthRun, hr, hlt, hov] at h
            · simp [depthRun, hr, hlt, hov] at h
              obtain ⟨prog2, h2⟩ := ih (ix + 1) (depth - kind.inputs + kind.outputs)
                (stateStep ctx t.id kind) d h hd
              cases hc : compileOps s rest (ix + 1) (depth - kind.inputs + kind.outputs)
                  (stateStep ctx t.id kind) with
              | mk r ctx3 =>
                  rw [hc] at h2
                  simp at h2
                  subst h2
                  exact ⟨Instr.mk kind t.id :: prog2,
                    by simp [compileOps, hr, hlt, hov, hc]⟩

/-- Two state arenas agreeing on a set of identities. -/
def agreeOn (ids : List Nat) (c1 c2 : Context) : Prop :=
  ∀ i, i ∈ ids → ctxFind c1 i = ctxFind c2 i

theorem runInstr_agree (s : Nat) (S : List Nat) (ins : Instr)
    (stack : List Sample) (c1 c2 : Context)
    (hins : ins.kind.freshState.isSome = true → ins.id ∈ S)
    (hag : agreeOn S c1 c2) :
    (runInstr s ins stack c1).1 = (runInstr s ins stack c2).1 ∧
    agreeOn S (runInstr s ins stack c1).2 (runInstr s ins stack c2).2 := by
  unfold runInstr
  cases hf : ins.kind.freshState with
  | none => exact ⟨rfl, hag⟩
  | some fresh =>
      have hid : ins.id ∈ S := hins (by rw [hf]; rfl)
      have hfind : ctxFind c1 ins.id = ctxFind c2 ins.id := hag ins.id hid
      rw [hfind]
      cases hs : statefulStep s ins.kind (stack.take ins.kind.inputs)
          ((ctxFind c2 ins.id).getD fresh) with
      | mk outs s2 =>
          refine ⟨rfl, ?_⟩
          intro i hi
          by_cases hii : i = ins.id
          · subst hii
            rw [ctxFind_update_self, ctxFind_update_self]
          · rw [ctxFind_update_ne _ _ _ _ hii, ctxFind_update_ne _ _ _ _ hii]
            exact hag i hi

theorem runProgram_agree (s : Nat) (S : List Nat) :
    ∀ (prog : Program) (stack : List Sample) (c1 c2 : Context),
      (∀ ins, ins ∈ prog → ins.kind.freshState.isSome = true → ins.id ∈ S) →
      agreeOn S c1 c2 →
      (runProgram s prog stack c1).1 = (runProgram s prog stack c2).1 ∧
      agreeOn S (runProgram s prog stack c1).2 (runProgram s prog stack c2).2 := by
  intro prog
  induction prog with
  | nil =>
      intro stack c1 c2 hsub hag
      exact ⟨rfl, hag⟩
  | cons ins rest ih =>
      intro stack c1 c2 hsub hag
      have h1 := runInstr_agree s S ins stack c1 c2 (hsub ins (by simp)) hag
      cases hr1 : runInstr s ins stack c1 with
      | mk st1 d1 =>
      cases hr2 : runInstr s ins stack c2 with
      | mk st2 d2 =>
          rw [hr1, hr2] at h1
          obtain ⟨hst, hag2⟩ := h1
          simp at hst
          subst hst
          simp only [runProgram, hr1, hr2]
          exact ih _ d1 d2 (fun i hi => hsub i (by simp [hi])) hag2

theorem framesOut_agree (s : Nat) (prog : Program) :
    ∀ (n : Nat) (c1 c2 : Context),
      agreeOn (statefulIds prog) c1 c2 →
      framesOut (VM.mk s prog c1) n = framesOut (VM.mk s prog c2) n := by
  intro n
  induction n with
  | zero =>
      intro c1 c2 hag
      rfl
  | succ n ih =>
      intro c1 c2 hag
      have hsub : ∀ ins, ins ∈ prog → ins.kind.freshState.isSome = true →
          ins.id ∈ statefulIds prog := by
        intro ins hi hf
        simp only [statefulIds, List.mem_map, List.mem_filter]
        exact ⟨ins, ⟨hi, hf⟩, rfl⟩
      have h := runProgram_agree s (statefulIds prog) prog [] c1 c2 hsub hag
      simp only [framesOut, VM.next_frame]
      cases hq1 : runProgram s prog [] c1 with
      | mk st1 d1 =>
      cases hq2 : runProgram s prog [] c2 with
      | mk st2 d2 =>
          rw [hq1, hq2] at h
          obtain ⟨hst, hag2⟩ := h
          simp at hst
          subst hst
          simp only []
          rw [ih d1 d2 hag2]

theorem framesOut_lengths (s : Nat) (prog : Program)
    (hlen : ∀ states : Context, ((runProgram s prog [] states).1).length = CHANNELS) :
    ∀ (n : Nat) (states : Context),
      (framesOut (VM.mk s prog states) n).map List.length
        = List.replicate n CHANNELS := by
  intro n
  induction n with
  | zero =>
      intro states
      rfl
  | succ n ih =>
      intro states
      simp only [framesOut, VM.next_frame]
      cases hq : runProgram s prog [] states with
      | mk st d =>
          have hl := hlen states
          rw [hq] at hl
          simp at hl
          simp [List.length_take, hl, ih d, List.replicate_succ]

theorem map_id_zip_take :
    ∀ (xs : List String) (ids : List Nat),
      ((xs.zip ids).map (fun p => TextOp.mk p.2 p.1)).map TextOp.id
        = ids.take xs.length := by
  intro xs
  induction xs with
  | nil =>
      intro ids
      simp
  | cons x rest ih =>
      intro ids
      cases ids with
      | nil => simp
      | cons j rest2 => simp [ih]

/-- Decidable equality for Except results, used to evaluate compile
outcomes on concrete inputs. -/
instance {ε α : Type} [DecidableEq ε] [DecidableEq α] :
    DecidableEq (Except ε α) := fun a b =>
  match a, b with
  | Except.error e1, Except.error e2 =>
      if h : e1 = e2 then Decidable.isTrue (h ▸ rfl)
      else Decidable.isFalse (fun hc => h (Except.error.inj hc))
  | Except.error _, Except.ok _ =>
      Decidable.isFalse (fun hc => Except.noConfusion hc)
  | Except.ok _, Except.error _ =>
      Decidable.isFalse (fun hc => Except.noConfusion hc)
  | Except.ok a1, Except.ok b1 =>
      if h : a1 = b1 then Decidable.isTrue (h ▸ rfl)
      else Decidable.isFalse (fun hc => h (Except.ok.inj hc))

/-! Claim theorems. -/

/-- C1: for every recompilation of a token sequence in which a stateful
operator's TextOp identity is unchanged, compile_program reuses the
existing state instance stored in the Context for that identity rather
than constructing fresh state: after a successful recompile the identity
still maps to exactly the state instance it had before, so the operator's
internal state (for example an oscillator phase) is preserved. -/
theorem compile_reuses_existing_state
    (ops : List TextOp) (s : Nat) (ctx : Context) (t : TextOp) (st : OpState)
    (hmem : t ∈ ops)
    (hstateful : resolvesStateful s t.op = true)
    (hprev : ctxFind ctx t.id = some st)
    (hok : (compile_program ops s ctx).1.isOk = true) :
    ctxFind (compile_program ops s ctx).2 t.id = some st := by
  cases hco : compileOps s ops 0 0 ctx with
  | mk r ctx2 =>
      cases r with
      | error e => simp [compile_program, hco, Except.isOk, Except.toBool] at hok
      | ok prog =>
          have hpres := compileOps_preserves_find s ops 0 0 ctx t.id st hprev
          rw [hco] at hpres
          have hm : natMem (ops.map TextOp.id) t.id = true :=
            (natMem_iff _ _).mpr (List.mem_map_of_mem TextOp.id hmem)
          simp [compile_program, hco, ctxFind_gc, hm, hpres]

/-- Witness for C1 at a concrete recompile: the oscillator identity 1 is
already bound to phase state sine 7 and keeps exactly that state. -/
theorem compile_reuses_existing_state_witness :
    ctxFind (compile_program [TextOp.mk 1 "sine:440", TextOp.mk 2 "dup"] 44100
        [(1, OpState.sine 7)]).2 1 = some (OpState.sine 7) :=
  compile_reuses_existing_state [TextOp.mk 1 "sine:440", TextOp.mk 2 "dup"] 44100
    [(1, OpState.sine 7)] (TextOp.mk 1 "sine:440") (OpState.sine 7)
    (by decide) (by decide) (by decide) (by decide)

/-- C2: a token sequence that fails to compile is reported without
installing anything: the edit step keeps the previously installed Program
and reports the structured error, and every subsequent next_frame call
produces exactly the frames it would have produced without the failed
compile (given the invariant that the installed Program's stateful
instances are backed by the shared state arena). -/
theorem failed_compile_preserves_vm
    (vm : VM) (ops : List TextOp) (e : CompileError)
    (herr : (compile_program ops vm.sampleRate vm.states).1 = Except.error e)
    (hwf : vmWF vm = true) :
    (editStep vm ops).1.program = vm.program ∧
    (editStep vm ops).2 = some e ∧
    ∀ n, framesOut (editStep vm ops).1 n = framesOut vm n := by
  cases hco : compileOps vm.sampleRate ops 0 0 vm.states with
  | mk r0 ctxA =>
      cases r0 with
      | ok prog => simp [compile_program, hco] at herr
      | error e0 =>
          have he : e0 = e := by
            simp [compile_program, hco] at herr
            exact herr
          subst he
          refine ⟨by simp [editStep, compile_program, hco],
            by simp [editStep, compile_program, hco], ?_⟩
          intro n
          have hagree : agreeOn (statefulIds vm.program) ctxA vm.states := by
            intro i hi
            simp only [statefulIds, List.mem_map] at hi
            obtain ⟨ins, hins, hid⟩ := hi
            rw [List.mem_filter] at hins
            have hp := (List.all_eq_true.mp hwf) ins hins.1
            simp [hins.2] at hp
            obtain ⟨v, hv⟩ := Option.isSome_iff_exists.mp hp
            have hpres := compileOps_preserves_find vm.sampleRate ops 0 0
              vm.states ins.id v hv
            rw [hco] at hpres
            subst hid
            rw [hpres, hv]
          have hfr := framesOut_agree vm.sampleRate vm.program n ctxA
            vm.states hagree
          have hvm : VM.mk vm.sampleRate vm.program vm.states = vm := rfl
          simp only [editStep, compile_program, hco]
          rw [← hvm]
          exact hfr

/-- Witness for C2: compiling the lone token "+" (arity 2 at depth 0)
fails with StackUnderflow at position 0, the installed Program is
unchanged and the next frames are identical. -/
theorem failed_compile_preserves_vm_witness :
    (editStep (VM.mk 44100 [Instr.mk (OpKind.sine (some 440)) 5,
        Instr.mk OpKind.dup 6] [(5, OpState.sine 7)]) [TextOp.mk 1 "+"]).1.program
      = [Instr.mk (OpKind.sine (some 440)) 5, Instr.mk OpKind.dup 6] ∧
    (editStep (VM.mk 44100 [Instr.mk (OpKind.sine (some 440)) 5,
        Instr.mk OpKind.dup 6] [(5, OpState.sine 7)]) [TextOp.mk 1 "+"]).2
      = some (CompileError.StackUnderflow 0) ∧
    framesOut (editStep (VM.mk 44100 [Instr.mk (OpKind.sine (some 440)) 5,
        Instr.mk OpKind.dup 6] [(5, OpState.sine 7)]) [TextOp.mk 1 "+"]).1 2
      = framesOut (VM.mk 44100 [Instr.mk (OpKind.sine (some 440)) 5,
        Instr.mk OpKind.dup 6] [(5, OpState.sine 7)]) 2 := by
  have h := failed_compile_preserves_vm
    (VM.mk 44100 [Instr.mk (OpKind.sine (some 440)) 5, Instr.mk OpKind.dup 6]
      [(5, OpState.sine 7)])
    [TextOp.mk 1 "+"] (CompileError.StackUnderflow 0) (by decide) (by decide)
  exact ⟨h.1, h.2.1, h.2.2 2⟩

/-- C3: compile_program is total with a structured result, for every input
it yields either a Program or a CompileError value, and running a compile
never modifies the currently installed VM Program. -/
theorem compile_total_and_pure (ops : List TextOp) (s : Nat) (ctx : Context)
    (vm : VM) :
    ((∃ prog, (compile_program ops s ctx).1 = Except.ok prog) ∨
      (∃ e, (compile_program ops s ctx).1 = Except.error e)) ∧
    (compileOnly vm ops).program = vm.program := by
  constructor
  · cases h : (compile_program ops s ctx).1 with
    | ok prog => exact Or.inl ⟨prog, rfl⟩
    | error e => exact Or.inr ⟨e, rfl⟩
  · rfl

/-- C4: for every installed Program compiled from a token sequence whose
tracked final stack depth equals CHANNELS, every next_frame call returns
a Frame of length exactly CHANNELS. -/
theorem installed_program_frame_lengths
    (ops : List TextOp) (ctx0 : Context) (vm : VM)
    (hok : (compile_program ops vm.sampleRate ctx0).1 = Except.ok vm.program)
    (hdepth : depthRun vm.sampleRate ops 0 = some CHANNELS) :
    ∀ n, (framesOut vm n).map List.length = List.replicate n CHANNELS := by
  intro n
  cases hco : compileOps vm.sampleRate ops 0 0 ctx0 with
  | mk r ctxA =>
      cases r with
      | error e => simp [compile_program, hco] at hok
      | ok prog =>
          have hp : prog = vm.program := by
            simp [compile_program, hco] at hok
            exact hok
          subst hp
          obtain ⟨d, hd1, hd2, hd3⟩ :=
            compileOps_ok_run vm.sampleRate ops 0 0 ctx0 _ _ hco
          rw [hdepth] at hd1
          have hdc : CHANNELS = d := Option.some.inj hd1
          have hlen : ∀ states : Context,
              ((runProgram vm.sampleRate vm.program [] states).1).length
                = CHANNELS := by
            intro states
            rw [hd3 states [] rfl, ← hdc]
          exact framesOut_lengths vm.sampleRate vm.program hlen n vm.states

/-- Witness for C4: the two-operator program noise dup reaches depth
CHANNELS and its first three frames all have length CHANNELS. -/
theorem installed_program_frame_lengths_witness :
    (framesOut (VM.mk 44100 [Instr.mk OpKind.noise 1, Instr.mk OpKind.dup 2]
        []) 3).map List.length = List.replicate 3 CHANNELS :=
  installed_program_frame_lengths [TextOp.mk 1 "noise", TextOp.mk 2 "dup"] []
    (VM.mk 44100 [Instr.mk OpKind.noise 1, Instr.mk OpKind.dup 2] [])
    (by decide) (by decide) 3

/-- C5: after processing all tokens the tracked final depth decides the
outcome: when it is at least CHANNELS compilation succeeds and next_frame
takes the top CHANNELS values of the final stack as the output channels,
and when it is fewer compilation fails with InsufficientOutputs. -/
theorem final_depth_policy
    (ops : List TextOp) (s : Nat) (ctx : Context) (d : Nat)
    (h : depthRun s ops 0 = some d) :
    (d < CHANNELS →
      (compile_program ops s ctx).1
        = Except.error CompileError.InsufficientOutputs) ∧
    (CHANNELS ≤ d →
      ∃ prog, (compile_program ops s ctx).1 = Except.ok prog ∧
        ∀ states : Context,
          (VM.next_frame (VM.mk s prog states)).1
            = ((runProgram s prog [] states).1).take CHANNELS) := by
  constructor
  · intro hlt
    have h2 := compileOps_insufficient s ops 0 0 ctx d h hlt
    cases hco : compileOps s ops 0 0 ctx with
    | mk r ctxA =>
        rw [hco] at h2
        simp at h2
        subst h2
        simp [compile_program, hco]
  · intro hge
    obtain ⟨prog, h2⟩ := compileOps_ok_of_depth s ops 0 0 ctx d h hge
    cases hco : compileOps s ops 0 0 ctx with
    | mk r ctxA =>
        rw [hco] at h2
        simp at h2
        subst h2
        refine ⟨prog, by simp [compile_program, hco], ?_⟩
        intro states
        cases hq : runProgram s prog [] states with
        | mk st dd => simp [VM.next_frame, hq]

/-- Witness for C5: the lone generator noise ends at depth 1 and fails
with InsufficientOutputs, while noise dup dup ends at depth 3 and
compiles. -/
theorem final_depth_policy_witness :
    (compile_program [TextOp.mk 1 "noise"] 44100 []).1
      = Except.error CompileError.InsufficientOutputs ∧
    ∃ prog, (compile_program [TextOp.mk 1 "noise", TextOp.mk 2 "dup",
        TextOp.mk 3 "dup"] 44100 []).1 = Except.ok prog := by
  constructor
  · exact (final_depth_policy [TextOp.mk 1 "noise"] 44100 [] 1
      (by decide)).1 (by decide)
  · obtain ⟨prog, hp, -⟩ := (final_depth_policy [TextOp.mk 1 "noise",
      TextOp.mk 2 "dup", TextOp.mk 3 "dup"] 44100 [] 3 (by decide)).2 (by decide)
    exact ⟨prog, hp⟩

/-- C6, counterexample to the claim as stated: a compile_program call that
fails (here with StackUnderflow, before the garbage-collection step runs)
leaves a Context entry whose identity 7 does not appear in the token
sequence, so the key set is not a subset of the sequence's identities
after every call. -/
theorem context_gc_claim_cex :
    ctxFind (compile_program [TextOp.mk 1 "+"] 44100
        [(7, OpState.noise 3)]).2 7 = some (OpState.noise 3) ∧
    ¬ (7 ∈ ([TextOp.mk 1 "+"] : List TextOp).map TextOp.id) := by
  decide

/-- C6 as amended: after every successful compile_program call, every
Context entry's identity appears in the input token sequence, so abandoned
operator state does not accumulate across successful recompiles. -/
theorem context_gc_on_success
    (ops : List TextOp) (s : Nat) (ctx : Context) (i : Nat) (st : OpState)
    (hok : (compile_program ops s ctx).1.isOk = true)
    (hfind : ctxFind (compile_program ops s ctx).2 i = some st) :
    i ∈ ops.map TextOp.id := by
  cases hco : compileOps s ops 0 0 ctx with
  | mk r ctxA =>
      cases r with
      | error e => simp [compile_program, hco, Except.isOk, Except.toBool] at hok
      | ok prog =>
          simp only [compile_program, hco] at hfind
          rw [ctxFind_gc] at hfind
          by_cases hm : natMem (ops.map TextOp.id) i = true
          · exact (natMem_iff _ _).mp hm
          · rw [if_neg hm] at hfind
            exact Option.noConfusion hfind

/-- Witness for C6 as amended: after successfully compiling noise dup over
a Context holding a stale identity 9, every surviving identity (such as 1,
the fresh noise state) appears in the token sequence. -/
theorem context_gc_on_success_witness :
    (1 : Nat) ∈ ([TextOp.mk 1 "noise", TextOp.mk 2 "dup"] : List TextOp).map
      TextOp.id :=
  context_gc_on_success [TextOp.mk 1 "noise", TextOp.mk 2 "dup"] 44100
    [(9, OpState.lpf 7)] 1 (OpState.noise 1) (by decide) (by decide)

/-- C7: next_frame is deterministic: two virtual machines with identical
Program, identical operator-state snapshot and identical sample rate
produce identical sequences of N frames for every N. -/
theorem next_frame_deterministic
    (a b : VM) (hp : a.program = b.program) (hc : a.states = b.states)
    (hs : a.sampleRate = b.sampleRate) :
    ∀ n, framesOut a n = framesOut b n := by
  cases a with
  | mk sa pa ca =>
      cases b with
      | mk sb pb cb =>
          simp at hp hc hs
          subst hp
          subst hc
          subst hs
          intro n
          rfl

/-- Witness for C7 at a concrete machine and N equal to 4. -/
theorem next_frame_deterministic_witness :
    framesOut (VM.mk 44100 [Instr.mk OpKind.noise 1, Instr.mk OpKind.dup 2]
        [(1, OpState.noise 1)]) 4
      = framesOut (VM.mk 44100 [Instr.mk OpKind.noise 1, Instr.mk OpKind.dup 2]
        [(1, OpState.noise 1)]) 4 :=
  next_frame_deterministic _ _ rfl rfl rfl 4

/-- C8: parse_program compiles with a brand-new empty Context and assigns
every whitespace-separated token the next identity from the random
stream, so every stateful-operator state it ever produces is a freshly
constructed initial state, never one reused from an earlier call. -/
theorem parse_program_fresh_state
    (s : String) (rate : Nat) (ids : List Nat) (i : Nat) (st : OpState)
    (hfind : ctxFind (parse_program s rate ids).2 i = some st) :
    (∃ k : OpKind, k.freshState = some st) ∧
    (parseOps s ids).map TextOp.id = ids.take (splitWhitespace s).length := by
  constructor
  · have hprov : ctxFind ([] : Context) i = some st ∨
        ∃ k : OpKind, k.freshState = some st := by
      unfold parse_program at hfind
      cases hco : compileOps rate (parseOps s ids) 0 0 [] with
      | mk r ctxA =>
          cases r with
          | error e =>
              simp only [compile_program, hco] at hfind
              exact compileOps_find_provenance rate (parseOps s ids) 0 0 [] i st
                (by rw [hco]; exact hfind)
          | ok prog =>
              simp only [compile_program, hco] at hfind
              rw [ctxFind_gc] at hfind
              by_cases hm : natMem ((parseOps s ids).map TextOp.id) i = true
              · rw [if_pos hm] at hfind
                exact compileOps_find_provenance rate (parseOps s ids) 0 0 [] i st
                  (by rw [hco]; exact hfind)
              · rw [if_neg hm] at hfind
                exact Option.noConfusion hfind
    cases hprov with
    | inl h0 => exact absurd h0 (by simp [ctxFind])
    | inr h0 => exact h0
  · exact map_id_zip_take (splitWhitespace s) ids

/-- Witness for C8: parsing the text noise dup with identity stream 10 11
leaves only fresh initial state in the temporary Context, and the tokens
take identities 10 and 11 in order. -/
theorem parse_program_fresh_state_witness :
    (∃ k : OpKind, k.freshState = some (OpState.noise 1)) ∧
    (parseOps "noise dup" [10, 11]).map TextOp.id
      = [10, 11].take (splitWhitespace "noise dup").length :=
  parse_program_fresh_state "noise dup" 44100 [10, 11] 10 (OpState.noise 1)
    (by decide)

/-- C9: App::redo and App::undo are extensionally equal: both bodies
delegate to saved_state.undo(), so redo performs exactly the same state
transition as undo and never reapplies an undone command. -/
theorem app_redo_eq_undo : ∀ a : App, App.redo a = App.undo a :=
  fun _ => rfl

/-- Sanity check that the equality of App::redo and App::undo is a fact
about the App methods and not an artifact of the Record model: on the
Record itself, redo and undo are different operations. -/
theorem record_redo_ne_undo_example :
    Record.redo (Record.mk (SavedState.mk (Position.mk 0 0) [] "")
        [SavedStateCommand.MoveCursor (Position.mk 1 0)] 0 0)
      ≠ Record.undo (Record.mk (SavedState.mk (Position.mk 0 0) [] "")
        [SavedStateCommand.MoveCursor (Position.mk 1 0)] 0 0) := by
  decide

/-- C10: the two order relations of Position disagree: at a with x 0 y 1
and b with x 1 y 0 the derived Ord (declaration order, x first) yields lt
while the hand-written partial_cmp (y first) yields some gt, violating
the requirement that partial_cmp a b equals some of cmp a b. -/
theorem position_orders_disagree :
    Position.partialCmp (Position.mk 0 1) (Position.mk 1 0)
        = some Ordering.gt ∧
    Position.cmp (Position.mk 0 1) (Position.mk 1 0) = Ordering.lt ∧
    Position.partialCmp (Position.mk 0 1) (Position.mk 1 0)
        ≠ some (Position.cmp (Position.mk 0 1) (Position.mk 1 0)) := by
  decide

end SoundGarden
